import Mathlib

/-!
# Block compressor driver (`kanzi/app/BlockCompressor.go`)

A shallow embedding of the command-line driver: `NewBlockCompressor` (flag
validation), `call` (the compression run) and `printOut`.

The driver is I/O code.  Everything it asks of its surroundings (the file
system, the compressed-stream engine of package `kanzi/io`, the clock) is
collected in a `World`, and every call it makes on them is recorded, in
program order, in a trace of `Event`s.  The engine is a state machine over an
arbitrary state type `σ`; the exit codes of package `kanzi/io` are the fields
of `ExitCodes`.
-/

namespace Kanzi

/-! ## Constants -/

def DEFAULT_BUFFER_SIZE : Nat := 32768

def WARN_EMPTY_INPUT : Int := -128

/-- The exit codes the driver takes from package `kanzi/io`.  Their values are
declared in that package, so they are carried as fields. -/
structure ExitCodes where
  ERR_MISSING_FILENAME : Int
  ERR_CREATE_COMPRESSOR : Int
  ERR_OVERWRITE_FILE : Int
  ERR_CREATE_FILE : Int
  ERR_OPEN_FILE : Int
  ERR_READ_FILE : Int
  ERR_PROCESS_BLOCK : Int
deriving DecidableEq, Repr

/-! ## Machine integers -/

/-- Reduction of an integer to the range of `int64` (two's complement). -/
def wrapInt64 (x : Int) : Int := (x + 2 ^ 63) % 2 ^ 64 - 2 ^ 63

/-- Conversion `uint(x)` of an `int` on a 64-bit platform. -/
def toUint (x : Int) : Nat := (x % 2 ^ 64).toNat

/-! ## Data model -/

/-- The driver instance: `type BlockCompressor struct`. -/
structure BlockCompressor where
  debug : Bool
  silent : Bool
  overwrite : Bool
  inputName : String
  outputName : String
  entropyCodec : String
  blockSize : Nat
deriving DecidableEq, Repr

/-- The values of the command-line flags after `flag.Parse()`. -/
structure Flags where
  help : Bool
  debug : Bool
  silent : Bool
  overwrite : Bool
  inputName : String
  outputName : String
  blockSize : Int
  entropy : String
deriving DecidableEq, Repr

/-- A value of type `*io.IOError` that is not nil: message and exit code. -/
structure IOError where
  message : String
  errorCode : Int
deriving DecidableEq, Repr

/-- A non-nil value of the interface type `error`, by dynamic type: a pointer
`*io.IOError` (which may itself be the nil pointer, `none`), or a value of any
other type, with the text `%v` prints for it. -/
inductive GoError
  | ioError (ptr : Option IOError)
  | other (text : String)
deriving DecidableEq, Repr

/-- Result of one `input.Read(buffer)`: the bytes placed in the buffer (their
number is the returned length) and the returned error, if any, as text. -/
structure ReadResult where
  data : List UInt8
  err : Option String
deriving DecidableEq, Repr

/-- The print statements of the source, one constructor per statement (the
eight usage lines share `usage`, the two empty lines share `blank`). -/
inductive Site
  | usage
  | warnSilentDebug
  | missingInput
  | echoInput
  | echoOutput
  | echoBlock
  | echoDebug
  | echoOverwrite
  | usingCodec
  | errOverwrite
  | errCreateFile
  | errStream
  | errStreamGeneric
  | errOpenInput
  | encodingStart
  | errRead
  | errWrite
  | errWriteGeneric
  | emptyInput
  | blank
  | statEncoding
  | statInput
  | statOutput
  | statRatio
  | statThroughput
deriving DecidableEq, Repr

/-- What decides whether a print statement writes its line. -/
inductive Gate
  | always
  | debug
  | notSilent
deriving DecidableEq, Repr

/-- The condition under which each print statement of the source writes:
`fmt.Print*` and `printOut(..., true)` always, `printOut(..., this.debug)`
under `debug`, `printOut(..., !this.silent)` unless `silent`. -/
def Site.gate : Site → Gate
  | .usage => .always
  | .warnSilentDebug => .always
  | .missingInput => .always
  | .echoInput => .debug
  | .echoOutput => .debug
  | .echoBlock => .debug
  | .echoDebug => .debug
  | .echoOverwrite => .debug
  | .usingCodec => .debug
  | .errOverwrite => .always
  | .errCreateFile => .always
  | .errStream => .always
  | .errStreamGeneric => .always
  | .errOpenInput => .always
  | .encodingStart => .notSilent
  | .errRead => .always
  | .errWrite => .always
  | .errWriteGeneric => .always
  | .emptyInput => .always
  | .blank => .notSilent
  | .statEncoding => .notSilent
  | .statInput => .notSilent
  | .statOutput => .notSilent
  | .statRatio => .notSilent
  | .statThroughput => .notSilent

/-- Value of a gate for a driver instance. -/
def Gate.holds (this : BlockCompressor) : Gate → Bool
  | .always => true
  | .debug => this.debug
  | .notSilent => !this.silent

/-- The lines of the statistics block. -/
def Site.isStatistic : Site → Bool
  | .statEncoding => true
  | .statInput => true
  | .statOutput => true
  | .statRatio => true
  | .statThroughput => true
  | _ => false

/-- The configuration echo lines. -/
def Site.isEcho : Site → Bool
  | .echoInput => true
  | .echoOutput => true
  | .echoBlock => true
  | .echoDebug => true
  | .echoOverwrite => true
  | _ => false

/-- One call the driver makes on its surroundings.  `out site text shown` is a
print statement reached with its line formatted; `shown` tells whether the
line is written to standard output (always `true` for `fmt.Print*`, the
second argument for `printOut`). -/
inductive Event
  | out (site : Site) (text : String) (shown : Bool)
  | openFile (name : String) (ok : Bool)
  | create (name : String) (ok : Bool)
  | closeOutput
  | newStream (codec : String) (blockSize : Nat) (debugSink : Bool) (ok : Bool)
  | closeStream
  | openInput (name : String) (ok : Bool)
  | closeInput
  | getWritten
  | read (data : List UInt8) (err : Option String)
  | write (chunk : List UInt8) (ok : Bool)
deriving DecidableEq, Repr

/-- The surroundings of one run.  `openFile`, `create` and `openInput` answer
`os.OpenFile(name, os.O_RDWR, 666)`, `os.Create(name)` and `os.Open(name)`
with `none` on success and the error text otherwise.  `newStream`,
`getWritten`, `write` and `close` are the engine: `io.NewCompressedOutputStream`
(codec, block size, whether a debug writer is given) and the methods
`GetWritten`, `Write` and `Close` of the stream, over the engine state `σ`.
`reads` lists the results of the successive `input.Read(buffer)` calls (the
buffer has `DEFAULT_BUFFER_SIZE` bytes, so a read returns at most that many); a
read past the end of the list returns length 0 with `io.EOF`.  `elapsed k` is the
duration in nanoseconds measured around the `k`-th `Write` (from 0).
`fmtRatio w r` is the text `%f` gives for `float64(w)/float64(r)`. -/
structure World (σ : Type) where
  openFile : String → Option String
  create : String → Option String
  newStream : String → Nat → Bool → Except GoError σ
  getWritten : σ → Nat
  write : σ → List UInt8 → σ × Option GoError
  close : σ → σ
  openInput : String → Option String
  reads : List ReadResult
  elapsed : Nat → Int
  fmtRatio : Nat → Int → String

/-- How `call` ends: it returns `(code, written)`, or a run-time panic unwinds
it. -/
inductive Outcome
  | returned (code : Int) (written : Nat)
  | panicked
deriving DecidableEq, Repr

/-- A run of `call`: how it ended, the calls it made in order (deferred calls
included), and the state of the compressed stream at the return statement
(`none` when no stream was constructed). -/
structure Run (σ : Type) where
  outcome : Outcome
  trace : List Event
  stream : Option σ

/-- The rest of the function runs after the events `es`. -/
def Run.after {σ : Type} (es : List Event) (r : Run σ) : Run σ :=
  { r with trace := es ++ r.trace }

/-- A `defer`: the events `es` happen when the function is left. -/
def Run.deferring {σ : Type} (r : Run σ) (es : List Event) : Run σ :=
  { r with trace := r.trace ++ es }

/-- What `NewBlockCompressor` does: it ends the process with `os.Exit(code)`,
or it returns a driver instance; `out` is what it printed. -/
inductive Built
  | exited (code : Int) (out : List Event)
  | ready (this : BlockCompressor) (out : List Event)
deriving DecidableEq, Repr

/-! ## The program -/

/-- The function `printOut(msg, print)`: `fmt.Println(msg)` when `print`. -/
def printOut (site : Site) (msg : String) (print : Bool) : List Event :=
  [Event.out site msg print]

/-- A direct `fmt.Printf` / `fmt.Println` of one line. -/
def fmtPrintln (site : Site) (msg : String) : List Event :=
  [Event.out site msg true]

/-- The lines written to standard output, in order. -/
def stdout : List Event → List String
  | [] => []
  | Event.out _ text true :: es => text :: stdout es
  | _ :: es => stdout es

/-- The chunks passed to `cos.Write`, in order. -/
def writes : List Event → List (List UInt8)
  | [] => []
  | Event.write chunk _ :: es => chunk :: writes es
  | _ :: es => writes es

/-- The usage text printed for `-help`. -/
def usage : List Event :=
  printOut .usage "-help              : display this message" true ++
  printOut .usage "-debug             : display the size of the encoded block pre-entropy coding" true ++
  printOut .usage "-silent            : silent mode: no output (except warnings and errors)" true ++
  printOut .usage "-overwrite         : overwrite the output file if it already exists" true ++
  printOut .usage "-input=<filename>  : mandatory name of the input file to encode" true ++
  printOut .usage "-output=<filename> : optional name of the output file (defaults to <input.knz>)" true ++
  printOut .usage "-block=<size>      : size of the block (max 16 MB / default 100 KB)" true ++
  printOut .usage "-entropy=          : Entropy codec to use [None|Huffman|Range|PAQ|FPAQ]" true

/-- The function `NewBlockCompressor`, from the parsed flag values.
`strings.ToUpper` is `String.toUpper` (they agree on ASCII names). -/
def NewBlockCompressor (codes : ExitCodes) (f : Flags) : Built :=
  if f.help == true then
    Built.exited 0 usage
  else
    let both := f.silent == true && f.debug == true
    let warn := if both then
      printOut .warnSilentDebug
        "Warning: both 'silent' and 'debug' options were selected, ignoring 'debug'" true
      else []
    let debug := if both then false else f.debug
    if f.inputName.utf8ByteSize == 0 then
      Built.exited codes.ERR_MISSING_FILENAME
        (warn ++ fmtPrintln .missingInput "Missing input file name, exiting ...")
    else
      let outputName :=
        if f.outputName.utf8ByteSize == 0 then f.inputName ++ ".knz" else f.outputName
      Built.ready
        { debug := debug
          silent := f.silent
          overwrite := f.overwrite
          inputName := f.inputName
          outputName := outputName
          entropyCodec := f.entropy.toUpper
          blockSize := toUint f.blockSize }
        warn

/-- The lines `call` starts with: the configuration echo and the codec line,
all under `this.debug`. -/
def banner (this : BlockCompressor) : List Event :=
  printOut .echoInput ("Input file name set to '" ++ this.inputName ++ "'") this.debug ++
  printOut .echoOutput ("Output file name set to '" ++ this.outputName ++ "'") this.debug ++
  printOut .echoBlock ("Block size set to " ++ toString this.blockSize) this.debug ++
  printOut .echoDebug ("Debug set to " ++ toString this.debug) this.debug ++
  printOut .echoOverwrite ("Overwrite set to " ++ toString this.overwrite) this.debug ++
  printOut .usingCodec
    ("Using " ++ (if this.entropyCodec != "NONE" then this.entropyCodec else "no") ++
      " entropy codec") this.debug

/-- The end of `call`, after the loop (lines 209-236): the empty-input return,
or close, statistics and the successful return. -/
def report {σ : Type} (W : World σ) (this : BlockCompressor) (written : Nat)
    (cos : σ) (read delta : Int) : Run σ :=
  if read == 0 then
    { outcome := Outcome.returned WARN_EMPTY_INPUT written
      trace := fmtPrintln .emptyInput "Empty input file ... nothing to do"
      stream := some cos }
  else
    let cos1 := W.close cos
    let ms := Int.tdiv delta 1000000
    { outcome := Outcome.returned 0 (W.getWritten cos1)
      trace :=
        [Event.closeStream] ++
        printOut .blank "" (!this.silent) ++
        printOut .statEncoding ("Encoding:         " ++ toString ms ++ " ms") (!this.silent) ++
        printOut .statInput ("Input size:       " ++ toString read) (!this.silent) ++
        [Event.getWritten] ++
        printOut .statOutput ("Output size:      " ++ toString (W.getWritten cos1))
          (!this.silent) ++
        [Event.getWritten] ++
        printOut .statRatio ("Ratio:            " ++ W.fmtRatio (W.getWritten cos1) read)
          (!this.silent) ++
        (if ms > 0 then
          printOut .statThroughput
            ("Throughput (KB/s) " ++
              toString (Int.tdiv (wrapInt64 (read * 1000) / 1024) ms)) (!this.silent)
         else []) ++
        printOut .blank "" (!this.silent) ++
        [Event.getWritten]
      stream := some cos1 }

/-- The read/compress loop of `call` (lines 183-207) followed by `report`.
Each step is one `input.Read(buffer)` and the loop test on its length; the
list holds the results of the reads not yet made.  `written` is the local
variable of that name, `read` and `delta` the `int64` counters, `k` the number
of chunks written so far.  Line 195 is the comma-ok type assertion: a
`*io.IOError` takes the first branch, where the method calls on a nil pointer
panic; any other error takes the generic branch. -/
def encode {σ : Type} (codes : ExitCodes) (W : World σ) (this : BlockCompressor)
    (written : Nat) : List ReadResult → σ → Int → Int → Nat → Run σ
  | [], cos, read, delta, _ =>
    (report W this written cos read delta).after [Event.read [] (some "EOF")]
  | r :: rs, cos, read, delta, k =>
    if r.data.length > 0 then
      if r.err.isSome then
        { outcome := Outcome.returned codes.ERR_READ_FILE written
          trace := [Event.read r.data r.err] ++
            fmtPrintln .errRead
              ("Failed to read the next chunk of input file '" ++ this.inputName ++ "': " ++
                r.err.getD "")
          stream := some cos }
      else
        let read1 := wrapInt64 (read + r.data.length)
        match W.write cos r.data with
        | (cos1, some (GoError.ioError (some ioerr))) =>
          { outcome := Outcome.returned ioerr.errorCode written
            trace := [Event.read r.data r.err, Event.write r.data false] ++
              fmtPrintln .errWrite ioerr.message
            stream := some cos1 }
        | (cos1, some (GoError.ioError none)) =>
          { outcome := Outcome.panicked
            trace := [Event.read r.data r.err, Event.write r.data false]
            stream := some cos1 }
        | (cos1, some (GoError.other text)) =>
          { outcome := Outcome.returned codes.ERR_PROCESS_BLOCK written
            trace := [Event.read r.data r.err, Event.write r.data false] ++
              fmtPrintln .errWriteGeneric ("Error in block codec forward(): " ++ text)
            stream := some cos1 }
        | (cos1, none) =>
          (encode codes W this written rs cos1 read1
              (wrapInt64 (delta + W.elapsed k)) (k + 1)).after
            [Event.read r.data r.err, Event.write r.data true]
    else
      (report W this written cos read delta).after [Event.read r.data r.err]

/-- Lines 147-237 of `call`, entered with the output file open: `written` is
still 0.  The three `defer`red closes are the events added by
`Run.deferring`.  Line 157 is the single-value type assertion
`err.(*io.IOError)`: it panics when the error has another dynamic type, and
yields the pointer otherwise, so the `else` of line 160 is taken for a nil
pointer only (`%v` then prints `<nil>`). -/
def withOutput {σ : Type} (codes : ExitCodes) (W : World σ) (this : BlockCompressor)
  (written : Nat) : Run σ :=
  Run.deferring
    (match W.newStream this.entropyCodec this.blockSize this.debug with
    | Except.error (GoError.other _) =>
      { outcome := Outcome.panicked
        trace := [Event.newStream this.entropyCodec this.blockSize this.debug false]
        stream := none }
    | Except.error (GoError.ioError (some ioerr)) =>
      { outcome := Outcome.returned ioerr.errorCode written
        trace := [Event.newStream this.entropyCodec this.blockSize this.debug false] ++
          fmtPrintln .errStream ioerr.message
        stream := none }
    | Except.error (GoError.ioError none) =>
      { outcome := Outcome.returned codes.ERR_CREATE_COMPRESSOR written
        trace := [Event.newStream this.entropyCodec this.blockSize this.debug false] ++
          fmtPrintln .errStreamGeneric "Cannot create compressed stream: <nil>"
        stream := none }
    | Except.ok cos =>
      Run.deferring
        (match W.openInput this.inputName with
        | some err =>
          { outcome := Outcome.returned codes.ERR_OPEN_FILE written
            trace := [Event.newStream this.entropyCodec this.blockSize this.debug true,
                Event.openInput this.inputName false] ++
              fmtPrintln .errOpenInput
                ("Cannot open input file '" ++ this.inputName ++ "': " ++ err)
            stream := some cos }
        | none =>
          Run.deferring
            ((encode codes W this (W.getWritten cos) W.reads cos 0 0 0).after
              ([Event.newStream this.entropyCodec this.blockSize this.debug true,
                Event.openInput this.inputName true] ++
                printOut .encodingStart "Encoding ..." (!this.silent) ++
                [Event.getWritten]))
            [Event.closeInput])
        [Event.closeStream])
    [Event.closeOutput]

/-- The method `call` (lines 108-237): the banner and the preparation of the
output file, then `withOutput`. -/
def call {σ : Type} (codes : ExitCodes) (W : World σ) (this : BlockCompressor) : Run σ :=
  let written : Nat := 0
  match W.openFile this.outputName with
  | none =>
    if this.overwrite == false then
      { outcome := Outcome.returned codes.ERR_OVERWRITE_FILE written
        trace := banner this ++ [Event.openFile this.outputName true] ++
          fmtPrintln .errOverwrite
            "The output file exists and the 'overwrite' command line option has not been provided" ++
          [Event.closeOutput]
        stream := none }
    else
      (withOutput codes W this written).after (banner this ++ [Event.openFile this.outputName true])
  | some _ =>
    match W.create this.outputName with
    | some err =>
      { outcome := Outcome.returned codes.ERR_CREATE_FILE written
        trace := banner this ++
          [Event.openFile this.outputName false, Event.create this.outputName false] ++
          fmtPrintln .errCreateFile
            ("Cannot open output file '" ++ this.outputName ++ "' for writing: " ++ err)
        stream := none }
    | none =>
      (withOutput codes W this written).after
        (banner this ++
          [Event.openFile this.outputName false, Event.create this.outputName true])

/-- The function `main`: the exit status of the process (`none` when a panic
ends it) and every call made. -/
def main {σ : Type} (codes : ExitCodes) (W : World σ) (f : Flags) : Option Int × List Event :=
  match NewBlockCompressor codes f with
  | Built.exited code out => (some code, out)
  | Built.ready bc out =>
    match (call codes W bc).outcome with
    | Outcome.returned code _ => (some code, out ++ (call codes W bc).trace)
    | Outcome.panicked => (none, out ++ (call codes W bc).trace)

/-! ## Vocabulary for the statements -/

/-- A read that returned the bytes `c` and no error. -/
def ReadResult.ok (c : List UInt8) : ReadResult := { data := c, err := none }

/-- The output file gets prepared: it exists and `overwrite` is set, or it
does not exist and is created. -/
def outputPrepared {σ : Type} (W : World σ) (this : BlockCompressor) : Bool :=
  match W.openFile this.outputName with
  | none => this.overwrite
  | some _ => (W.create this.outputName).isNone

/-- The file-system calls of a successful preparation of the output file. -/
def prepareEvents {σ : Type} (W : World σ) (this : BlockCompressor) : List Event :=
  match W.openFile this.outputName with
  | none => [Event.openFile this.outputName true]
  | some _ => [Event.openFile this.outputName false, Event.create this.outputName true]

/-- The next read ends the loop: it returns zero bytes (the end of the list is
the zero-length read with `io.EOF`). -/
def endsInput : List ReadResult → Bool
  | [] => true
  | r :: _ => r.data.isEmpty

/-- The chunks of the leading reads that return at least one byte and no
error. -/
def goodChunks : List ReadResult → List (List UInt8)
  | [] => []
  | r :: rs => if 0 < r.data.length && r.err.isNone then r.data :: goodChunks rs else []

/-- The reads from the first one that returns no byte or an error. -/
def afterGood : List ReadResult → List ReadResult
  | [] => []
  | r :: rs => if 0 < r.data.length && r.err.isNone then afterGood rs else r :: rs

/-- State of the stream after the chunks are written in order. -/
def feed {σ : Type} (W : World σ) : σ → List (List UInt8) → σ
  | cos, [] => cos
  | cos, c :: cs => feed W (W.write cos c).1 cs

/-- Every one of the writes of the chunks, in order from state `cos`, returns
no error. -/
def writesSucceed {σ : Type} (W : World σ) : σ → List (List UInt8) → Bool
  | _, [] => true
  | cos, c :: cs => (W.write cos c).2.isNone && writesSucceed W (W.write cos c).1 cs

/-- The counter `read` after the chunks are counted. -/
def countRead : Int → List (List UInt8) → Int
  | read, [] => read
  | read, c :: cs => countRead (wrapInt64 (read + c.length)) cs

/-- The counter `delta` after `n` more writes, the next being the `k`-th. -/
def countDelta {σ : Type} (W : World σ) : Int → Nat → Nat → Int
  | delta, _, 0 => delta
  | delta, k, n + 1 => countDelta W (wrapInt64 (delta + W.elapsed k)) (k + 1) n

/-- The calls of the loop for chunks read and written without error. -/
def chunkEvents : List (List UInt8) → List Event
  | [] => []
  | c :: cs => Event.read c none :: Event.write c true :: chunkEvents cs

/-- The read the loop makes next. -/
def nextRead : List ReadResult → Event
  | [] => Event.read [] (some "EOF")
  | r :: _ => Event.read r.data r.err

/-- The calls between the prepared output file and the first read: stream
construction, opening of the input, the progress line, `cos.GetWritten()`. -/
def startEvents (this : BlockCompressor) : List Event :=
  [Event.newStream this.entropyCodec this.blockSize this.debug true,
    Event.openInput this.inputName true] ++
  printOut .encodingStart "Encoding ..." (!this.silent) ++
  [Event.getWritten]

/-- The print statements of the method `call` (the others are those of
`NewBlockCompressor`). -/
def Site.inCall : Site → Bool
  | .usage => false
  | .warnSilentDebug => false
  | .missingInput => false
  | _ => true

/-- The warnings and error messages. -/
def Site.isDiagnostic : Site → Bool
  | .warnSilentDebug => true
  | .missingInput => true
  | .errOverwrite => true
  | .errCreateFile => true
  | .errStream => true
  | .errStreamGeneric => true
  | .errOpenInput => true
  | .errRead => true
  | .errWrite => true
  | .errWriteGeneric => true
  | .emptyInput => true
  | _ => false

/-- A print statement of `call` whose line is shown exactly when its gate
holds for `this` (any event that is not a print statement counts). -/
def Event.lawful (this : BlockCompressor) : Event → Bool
  | Event.out site _ shown => shown == site.gate.holds this && site.inCall
  | _ => true

/-- A line written by a print statement that no flag gates. -/
def Event.isUngated : Event → Bool
  | Event.out site _ true => site.gate == Gate.always
  | _ => false

/-- The run printed an ungated line, or returned exit code 0, or panicked. -/
def Run.explained {σ : Type} (r : Run σ) : Bool :=
  r.trace.any Event.isUngated ||
    (match r.outcome with
     | Outcome.returned code _ => code == 0
     | Outcome.panicked => true)

/-- The reads with the error of every zero-length read removed. -/
def dropZeroReadErrors : List ReadResult → List ReadResult
  | [] => []
  | r :: rs =>
    (if r.data.length > 0 then r else { data := r.data, err := none }) :: dropZeroReadErrors rs

/-- The world in which every zero-length read returns no error. -/
def World.withoutZeroReadErrors {σ : Type} (W : World σ) : World σ :=
  { W with reads := dropZeroReadErrors W.reads }

/-! ## Sample surroundings -/

/-- A sample assignment of the exit codes of package `kanzi/io`. -/
def sampleCodes : ExitCodes :=
  { ERR_MISSING_FILENAME := -1
    ERR_CREATE_COMPRESSOR := -4
    ERR_OVERWRITE_FILE := -7
    ERR_CREATE_FILE := -8
    ERR_OPEN_FILE := -10
    ERR_READ_FILE := -11
    ERR_PROCESS_BLOCK := -13 }

/-- A sample driver instance. -/
def sampleConfig : BlockCompressor :=
  { debug := false
    silent := false
    overwrite := false
    inputName := "a.txt"
    outputName := "a.txt.knz"
    entropyCodec := "HUFFMAN"
    blockSize := 100000 }

/-- A sample world: the output file does not exist and is created, the input
file opens; the engine state is its written-byte count, 4 header bytes at
construction and one byte more per byte written; every write takes 2 ms. -/
def sampleWorld (reads : List ReadResult) : World Nat :=
  { openFile := fun _ => some "no such file or directory"
    create := fun _ => none
    newStream := fun _ _ _ => Except.ok 4
    getWritten := fun s => s
    write := fun s c => (s + c.length, none)
    close := fun s => s
    openInput := fun _ => none
    reads := reads
    elapsed := fun _ => 2000000
    fmtRatio := fun _ _ => "" }

/-- The sample world with an engine whose constructor fails with `err`. -/
def failingStreamWorld (err : GoError) : World Nat :=
  { sampleWorld [] with newStream := fun _ _ _ => Except.error err }

/-- The sample world with an engine that refuses, with `err`, every write once
`limit` bytes or more are written. -/
def fullDiskWorld (limit : Nat) (err : GoError) (reads : List ReadResult) : World Nat :=
  { sampleWorld reads with
    write := fun s c => if limit ≤ s then (s, some err) else (s + c.length, none) }

/-- The sample world with the output file already there. -/
def existingOutputWorld (reads : List ReadResult) : World Nat :=
  { sampleWorld reads with openFile := fun _ => none }

/-- Two reads of the sample input: three bytes, then two. -/
def sampleReads : List ReadResult :=
  [ReadResult.ok [1, 2, 3], ReadResult.ok [4, 5]]

/-- The chunks of `sampleReads`. -/
def sampleChunks : List (List UInt8) := [[1, 2, 3], [4, 5]]

/-- Sample flags: only `-input=a.txt`, every other flag at its default. -/
def sampleFlags : Flags :=
  { help := false
    debug := false
    silent := false
    overwrite := false
    inputName := "a.txt"
    outputName := ""
    blockSize := 100000
    entropy := "Huffman" }

/-- Flags with `-silent`, `-debug` and `-input=a.txt`. -/
def silentDebugFlags : Flags :=
  { sampleFlags with silent := true, debug := true }

/-- Flags with `-silent`, `-help` and `-input=a.txt`. -/
def silentHelpFlags : Flags :=
  { sampleFlags with silent := true, help := true }

/-! ## Basic facts -/

theorem utf8ByteSize_eq_zero (s : String) : s.utf8ByteSize = 0 ↔ s = "" := by
  cases s with
  | mk cs =>
    cases cs with
    | nil => simp [String.utf8ByteSize, String.utf8ByteSize.go]
    | cons c cs =>
      have h := Char.utf8Size_pos c
      simp [String.utf8ByteSize, String.utf8ByteSize.go]
      constructor
      · omega
      · intro h2; exact absurd (congrArg String.data h2) (by simp)

theorem append_knz_ne (s : String) : s ++ ".knz" ≠ "" := by
  intro h
  have h2 := congrArg String.length h
  simp at h2
  exact absurd h2.2 (by decide)

theorem wrapInt64_of_range (x : Int) (h0 : -2 ^ 63 ≤ x) (h1 : x < 2 ^ 63) :
    wrapInt64 x = x := by
  unfold wrapInt64
  norm_num at h0 h1 ⊢
  omega

@[simp]
theorem Run.after_outcome {σ : Type} (es : List Event) (r : Run σ) :
    (r.after es).outcome = r.outcome := rfl

@[simp]
theorem Run.after_trace {σ : Type} (es : List Event) (r : Run σ) :
    (r.after es).trace = es ++ r.trace := rfl

@[simp]
theorem Run.after_stream {σ : Type} (es : List Event) (r : Run σ) :
    (r.after es).stream = r.stream := rfl

@[simp]
theorem Run.deferring_outcome {σ : Type} (es : List Event) (r : Run σ) :
    (r.deferring es).outcome = r.outcome := rfl

@[simp]
theorem Run.deferring_trace {σ : Type} (es : List Event) (r : Run σ) :
    (r.deferring es).trace = r.trace ++ es := rfl

@[simp]
theorem Run.deferring_stream {σ : Type} (es : List Event) (r : Run σ) :
    (r.deferring es).stream = r.stream := rfl

theorem Run.after_after {σ : Type} (a b : List Event) (r : Run σ) :
    (r.after a).after b = r.after (b ++ a) := by
  simp [Run.after]

theorem Run.after_nil {σ : Type} (r : Run σ) : r.after [] = r := rfl

/-! ## The loop -/

theorem encode_split {σ : Type} (codes : ExitCodes) (W : World σ) (this : BlockCompressor)
    (written : Nat) : ∀ (reads : List ReadResult) (cos : σ) (read delta : Int) (k : Nat),
    writesSucceed W cos (goodChunks reads) = true →
    encode codes W this written reads cos read delta k =
      (encode codes W this written (afterGood reads) (feed W cos (goodChunks reads))
        (countRead read (goodChunks reads))
        (countDelta W delta k (goodChunks reads).length)
        (k + (goodChunks reads).length)).after (chunkEvents (goodChunks reads)) := by
  intro reads
  induction reads with
  | nil =>
    intro cos read delta k _
    simp [goodChunks, afterGood, feed, countRead, countDelta, chunkEvents, Run.after_nil]
  | cons r rs ih =>
    intro cos read delta k hw
    by_cases hg : (decide (0 < r.data.length) && r.err.isNone) = true
    · simp only [goodChunks, hg, if_true, writesSucceed, Bool.and_eq_true] at hw
      obtain ⟨hw1, hw2⟩ := hw
      have hg2 : 0 < r.data.length ∧ r.err.isNone = true := by
        simpa only [Bool.and_eq_true, decide_eq_true_eq] using hg
      have hlen : 0 < r.data.length := hg2.1
      have he : r.err = none := by
        cases h : r.err with
        | none => rfl
        | some x => rw [h] at hg2; exact absurd hg2.2 (by simp)
      have herr : r.err.isSome = false := by rw [he]; rfl
      have hwr : W.write cos r.data = ((W.write cos r.data).1, none) := by
        cases h : W.write cos r.data with
        | mk a b => simp [h] at hw1; simp [hw1]
      rw [encode]
      simp only [gt_iff_lt, hlen, if_true, herr, Bool.false_eq_true, if_false]
      rw [hwr]
      simp only [goodChunks, afterGood, hg, if_true, feed, countRead, countDelta, chunkEvents,
        List.length_cons]
      rw [ih _ _ _ _ hw2, Run.after_after]
      have hk : k + 1 + (goodChunks rs).length = k + ((goodChunks rs).length + 1) := by omega
      rw [hk, he]
      rfl
    · simp [goodChunks, afterGood, hg, feed, countRead, countDelta, chunkEvents, Run.after_nil]

theorem encode_end {σ : Type} (codes : ExitCodes) (W : World σ) (this : BlockCompressor)
    (written : Nat) (reads : List ReadResult) (cos : σ) (read delta : Int) (k : Nat)
    (h : endsInput reads = true) :
    encode codes W this written reads cos read delta k =
      (report W this written cos read delta).after [nextRead reads] := by
  cases reads with
  | nil => rfl
  | cons r rs =>
    have hr : r.data = [] := by simpa [endsInput] using h
    rw [encode]
    simp [hr, nextRead]

theorem encode_read_error {σ : Type} (codes : ExitCodes) (W : World σ) (this : BlockCompressor)
    (written : Nat) (r : ReadResult) (rs : List ReadResult) (cos : σ) (read delta : Int)
    (k : Nat) (hlen : 0 < r.data.length) (herr : r.err.isSome = true) :
    encode codes W this written (r :: rs) cos read delta k =
      { outcome := Outcome.returned codes.ERR_READ_FILE written
        trace := [Event.read r.data r.err] ++
          fmtPrintln .errRead
            ("Failed to read the next chunk of input file '" ++ this.inputName ++ "': " ++
              r.err.getD "")
        stream := some cos } := by
  rw [encode]
  simp [hlen, herr]

theorem goodChunks_append (chunks : List (List UInt8)) (tl : List ReadResult)
    (hchunk : ∀ c ∈ chunks, 1 ≤ c.length) (hend : endsInput tl = true) :
    goodChunks (chunks.map ReadResult.ok ++ tl) = chunks ∧
      afterGood (chunks.map ReadResult.ok ++ tl) = tl := by
  induction chunks with
  | nil =>
    cases tl with
    | nil => exact ⟨rfl, rfl⟩
    | cons r rs =>
      have hr : r.data = [] := by simpa [endsInput] using hend
      simp [goodChunks, afterGood, hr]
  | cons c cs ih =>
    have hc : 0 < c.length := hchunk c (List.mem_cons_self _ _)
    have ih2 := ih (fun x hx => hchunk x (List.mem_cons_of_mem _ hx))
    simp [goodChunks, afterGood, ReadResult.ok, hc]
    simpa [ReadResult.ok] using ih2

theorem call_loop {σ : Type} (codes : ExitCodes) (W : World σ) (this : BlockCompressor)
    (cos0 : σ) (hout : outputPrepared W this = true)
    (hnew : W.newStream this.entropyCodec this.blockSize this.debug = Except.ok cos0)
    (hin : W.openInput this.inputName = none) :
    (call codes W this).outcome =
        (encode codes W this (W.getWritten cos0) W.reads cos0 0 0 0).outcome ∧
      (call codes W this).stream =
        (encode codes W this (W.getWritten cos0) W.reads cos0 0 0 0).stream ∧
      (call codes W this).trace =
        banner this ++ prepareEvents W this ++ startEvents this ++
          (encode codes W this (W.getWritten cos0) W.reads cos0 0 0 0).trace ++
          [Event.closeInput, Event.closeStream, Event.closeOutput] := by
  unfold outputPrepared at hout
  unfold call prepareEvents withOutput
  cases ho : W.openFile this.outputName with
  | none =>
    rw [ho] at hout
    simp only at hout
    simp [hout, hnew, hin, startEvents]
  | some e =>
    rw [ho] at hout
    simp only at hout
    cases hc : W.create this.outputName with
    | some e2 => rw [hc] at hout; exact absurd hout (by simp)
    | none => simp [hnew, hin, startEvents]

theorem afterGood_cases (reads : List ReadResult) :
    endsInput (afterGood reads) = true ∨
      ∃ r rs, afterGood reads = r :: rs ∧ 0 < r.data.length ∧ r.err.isSome = true := by
  induction reads with
  | nil => exact Or.inl rfl
  | cons r rs ih =>
    by_cases hg : (decide (0 < r.data.length) && r.err.isNone) = true
    · simpa [afterGood, hg] using ih
    · simp only [afterGood, hg]
      by_cases hl : 0 < r.data.length
      · right
        refine ⟨r, rs, rfl, hl, ?_⟩
        cases he : r.err with
        | none => simp [hl, he] at hg
        | some e => rfl
      · left
        have : r.data = [] := by
          cases hd : r.data with
          | nil => rfl
          | cons a as => simp [hd] at hl
        simp [endsInput, this]

theorem writes_append (a b : List Event) : writes (a ++ b) = writes a ++ writes b := by
  induction a with
  | nil => rfl
  | cons e es ih => cases e <;> simp [writes, ih]

theorem writes_chunkEvents (cs : List (List UInt8)) : writes (chunkEvents cs) = cs := by
  induction cs with
  | nil => rfl
  | cons c cs ih => simp [chunkEvents, writes, ih]

theorem writes_banner (this : BlockCompressor) : writes (banner this) = [] := by
  simp [banner, printOut, writes]

theorem writes_prepareEvents {σ : Type} (W : World σ) (this : BlockCompressor) :
    writes (prepareEvents W this) = [] := by
  unfold prepareEvents
  cases W.openFile this.outputName <;> simp [writes]

theorem writes_startEvents (this : BlockCompressor) : writes (startEvents this) = [] := by
  simp [startEvents, printOut, writes]

theorem writes_nextRead (reads : List ReadResult) : writes [nextRead reads] = [] := by
  cases reads <;> simp [nextRead, writes]

theorem writes_report {σ : Type} (W : World σ) (this : BlockCompressor) (written : Nat)
    (cos : σ) (read delta : Int) : writes (report W this written cos read delta).trace = [] := by
  unfold report
  by_cases h : read = 0
  · simp [h, fmtPrintln, writes]
  · by_cases hm : 0 < Int.tdiv delta 1000000
    · simp [h, hm, printOut, writes]
    · simp [h, hm, printOut, writes]

theorem countRead_eq (cs : List (List UInt8)) :
    ∀ read : Int, 0 ≤ read → read + (cs.flatten.length : Int) < 2 ^ 63 →
      countRead read cs = read + (cs.flatten.length : Int) := by
  induction cs with
  | nil => intro read _ _; simp [countRead]
  | cons c cs ih =>
    intro read h0 h1
    simp only [List.flatten_cons, List.length_append, Nat.cast_add] at h1 ⊢
    have hw : wrapInt64 (read + (c.length : Int)) = read + (c.length : Int) := by
      apply wrapInt64_of_range
      · have : (0 : Int) ≤ (c.length : Int) := Int.ofNat_nonneg _
        norm_num
        omega
      · have : (0 : Int) ≤ (cs.flatten.length : Int) := Int.ofNat_nonneg _
        omega
    rw [countRead, hw, ih _ (by omega) (by omega)]
    omega

theorem report_success {σ : Type} (W : World σ) (this : BlockCompressor) (written : Nat)
    (cos : σ) (read delta : Int) (h : read ≠ 0) :
    (report W this written cos read delta).outcome =
        Outcome.returned 0 (W.getWritten (W.close cos)) ∧
      (report W this written cos read delta).stream = some (W.close cos) ∧
      (report W this written cos read delta).trace =
        [Event.closeStream,
          Event.out .blank "" (!this.silent),
          Event.out .statEncoding
            ("Encoding:         " ++ toString (Int.tdiv delta 1000000) ++ " ms") (!this.silent),
          Event.out .statInput ("Input size:       " ++ toString read) (!this.silent),
          Event.getWritten,
          Event.out .statOutput ("Output size:      " ++ toString (W.getWritten (W.close cos)))
            (!this.silent),
          Event.getWritten,
          Event.out .statRatio
            ("Ratio:            " ++ W.fmtRatio (W.getWritten (W.close cos)) read)
            (!this.silent)] ++
        (if 0 < Int.tdiv delta 1000000 then
          [Event.out .statThroughput
            ("Throughput (KB/s) " ++
              toString (Int.tdiv (wrapInt64 (read * 1000) / 1024) (Int.tdiv delta 1000000)))
            (!this.silent)]
         else []) ++
        [Event.out .blank "" (!this.silent), Event.getWritten] := by
  unfold report
  simp [h, printOut]

theorem report_empty {σ : Type} (W : World σ) (this : BlockCompressor) (written : Nat)
    (cos : σ) (delta : Int) :
    report W this written cos 0 delta =
      { outcome := Outcome.returned WARN_EMPTY_INPUT written
        trace := [Event.out .emptyInput "Empty input file ... nothing to do" true]
        stream := some cos } := by
  simp [report, fmtPrintln]

theorem call_clean_reads {σ : Type} (codes : ExitCodes) (W : World σ) (this : BlockCompressor)
    (cos0 : σ) (chunks : List (List UInt8)) (tl : List ReadResult)
    (hout : outputPrepared W this = true)
    (hnew : W.newStream this.entropyCodec this.blockSize this.debug = Except.ok cos0)
    (hin : W.openInput this.inputName = none)
    (hreads : W.reads = chunks.map ReadResult.ok ++ tl)
    (hchunk : ∀ c ∈ chunks, 1 ≤ c.length)
    (hend : endsInput tl = true)
    (hwr : writesSucceed W cos0 chunks = true) :
    (call codes W this).outcome =
        (report W this (W.getWritten cos0) (feed W cos0 chunks) (countRead 0 chunks)
          (countDelta W 0 0 chunks.length)).outcome ∧
      (call codes W this).stream =
        (report W this (W.getWritten cos0) (feed W cos0 chunks) (countRead 0 chunks)
          (countDelta W 0 0 chunks.length)).stream ∧
      (call codes W this).trace =
        banner this ++ prepareEvents W this ++ startEvents this ++
          (chunkEvents chunks ++ [nextRead tl] ++
            (report W this (W.getWritten cos0) (feed W cos0 chunks) (countRead 0 chunks)
              (countDelta W 0 0 chunks.length)).trace) ++
          [Event.closeInput, Event.closeStream, Event.closeOutput] := by
  obtain ⟨h1, h2, h3⟩ := call_loop codes W this cos0 hout hnew hin
  obtain ⟨hg, ha⟩ := goodChunks_append chunks tl hchunk hend
  have hsplit := encode_split codes W this (W.getWritten cos0) W.reads cos0 0 0 0
    (by rw [hreads, hg]; exact hwr)
  rw [hreads, hg, ha, encode_end _ _ _ _ _ _ _ _ _ hend, Run.after_after, ← hreads] at hsplit
  rw [h1, h2, h3, hsplit]
  simp

theorem out_not_mem_chunkEvents (cs : List (List UInt8)) (site : Site) (text : String)
    (shown : Bool) : Event.out site text shown ∉ chunkEvents cs := by
  induction cs with
  | nil => simp [chunkEvents]
  | cons c cs ih => simp [chunkEvents, ih]

theorem out_not_mem_prepareEvents {σ : Type} (W : World σ) (this : BlockCompressor)
    (site : Site) (text : String) (shown : Bool) :
    Event.out site text shown ∉ prepareEvents W this := by
  unfold prepareEvents
  cases W.openFile this.outputName <;> simp

theorem out_ne_nextRead (tl : List ReadResult) (site : Site) (text : String) (shown : Bool) :
    Event.out site text shown ≠ nextRead tl := by
  cases tl <;> simp [nextRead]

theorem mem_stdout (es : List Event) (text : String) :
    text ∈ stdout es ↔ ∃ site, Event.out site text true ∈ es := by
  induction es with
  | nil => simp [stdout]
  | cons e es ih =>
    cases e with
    | out s t b =>
      cases b with
      | true =>
        simp only [stdout, List.mem_cons, ih]
        constructor
        · rintro (h | ⟨site, h⟩)
          · exact ⟨s, Or.inl (by rw [h])⟩
          · exact ⟨site, Or.inr h⟩
        · rintro ⟨site, h | h⟩
          · left
            injection h with _ h2 _
          · exact Or.inr ⟨site, h⟩
      | false => simp [stdout, ih]
    | _ => simp [stdout, ih]

theorem banner_lawful (this : BlockCompressor) :
    (banner this).all (Event.lawful this) = true := by
  simp [banner, printOut, Event.lawful, Site.gate, Gate.holds, Site.inCall]

theorem report_lawful {σ : Type} (W : World σ) (this : BlockCompressor) (written : Nat)
    (cos : σ) (read delta : Int) :
    (report W this written cos read delta).trace.all (Event.lawful this) = true := by
  unfold report
  by_cases h : read = 0
  · simp [h, fmtPrintln, Event.lawful, Site.gate, Gate.holds, Site.inCall]
  · by_cases hm : 0 < Int.tdiv delta 1000000
    · simp [h, hm, printOut, Event.lawful, Site.gate, Gate.holds, Site.inCall]
    · simp [h, hm, printOut, Event.lawful, Site.gate, Gate.holds, Site.inCall]

theorem encode_lawful {σ : Type} (codes : ExitCodes) (W : World σ) (this : BlockCompressor)
    (written : Nat) : ∀ (reads : List ReadResult) (cos : σ) (read delta : Int) (k : Nat),
    (encode codes W this written reads cos read delta k).trace.all (Event.lawful this) =
      true := by
  intro reads
  induction reads with
  | nil =>
    intro cos read delta k
    rw [encode]
    simp [report_lawful, Event.lawful]
  | cons r rs ih =>
    intro cos read delta k
    rw [encode]
    split_ifs
    · simp [fmtPrintln, Event.lawful, Site.gate, Gate.holds, Site.inCall]
    · split
      · simp [fmtPrintln, Event.lawful, Site.gate, Gate.holds, Site.inCall]
      · simp [Event.lawful]
      · simp [fmtPrintln, Event.lawful, Site.gate, Gate.holds, Site.inCall]
      · simp [Event.lawful, ih]
    · simp [report_lawful, Event.lawful]

theorem withOutput_lawful {σ : Type} (codes : ExitCodes) (W : World σ)
    (this : BlockCompressor) (written : Nat) :
    (withOutput codes W this written).trace.all (Event.lawful this) = true := by
  unfold withOutput
  split
  · simp [Event.lawful]
  · simp [fmtPrintln, Event.lawful, Site.gate, Gate.holds, Site.inCall]
  · simp [fmtPrintln, Event.lawful, Site.gate, Gate.holds, Site.inCall]
  · split
    · simp [fmtPrintln, Event.lawful, Site.gate, Gate.holds, Site.inCall]
    · simp [printOut, encode_lawful, Event.lawful, Site.gate, Gate.holds, Site.inCall]

theorem call_lawful {σ : Type} (codes : ExitCodes) (W : World σ) (this : BlockCompressor) :
    (call codes W this).trace.all (Event.lawful this) = true := by
  unfold call
  split
  · split_ifs
    · simp [banner_lawful, fmtPrintln, Event.lawful, Site.gate, Gate.holds, Site.inCall]
    · simp [banner_lawful, withOutput_lawful, Event.lawful]
  · split
    · simp [banner_lawful, fmtPrintln, Event.lawful, Site.gate, Gate.holds, Site.inCall]
    · simp [banner_lawful, withOutput_lawful, Event.lawful]

theorem explained_after {σ : Type} (es : List Event) (r : Run σ)
    (h : r.explained = true) : (r.after es).explained = true := by
  simp only [Run.explained, Run.after_trace, Run.after_outcome, List.any_append,
    Bool.or_eq_true] at h ⊢
  tauto

theorem explained_deferring {σ : Type} (es : List Event) (r : Run σ)
    (h : r.explained = true) : (r.deferring es).explained = true := by
  simp only [Run.explained, Run.deferring_trace, Run.deferring_outcome, List.any_append,
    Bool.or_eq_true] at h ⊢
  tauto

theorem report_explained {σ : Type} (W : World σ) (this : BlockCompressor) (written : Nat)
    (cos : σ) (read delta : Int) :
    (report W this written cos read delta).explained = true := by
  unfold report
  by_cases h : read = 0
  · simp [h, Run.explained, fmtPrintln, Event.isUngated, Site.gate]
  · simp [h, Run.explained]

theorem encode_explained {σ : Type} (codes : ExitCodes) (W : World σ) (this : BlockCompressor)
    (written : Nat) : ∀ (reads : List ReadResult) (cos : σ) (read delta : Int) (k : Nat),
    (encode codes W this written reads cos read delta k).explained = true := by
  intro reads
  induction reads with
  | nil =>
    intro cos read delta k
    rw [encode]
    exact explained_after _ _ (report_explained _ _ _ _ _ _)
  | cons r rs ih =>
    intro cos read delta k
    rw [encode]
    split_ifs
    · simp [Run.explained, fmtPrintln, Event.isUngated, Site.gate]
    · split
      · simp [Run.explained, fmtPrintln, Event.isUngated, Site.gate]
      · simp [Run.explained]
      · simp [Run.explained, fmtPrintln, Event.isUngated, Site.gate]
      · exact explained_after _ _ (ih _ _ _ _)
    · exact explained_after _ _ (report_explained _ _ _ _ _ _)

theorem withOutput_explained {σ : Type} (codes : ExitCodes) (W : World σ)
    (this : BlockCompressor) (written : Nat) :
    (withOutput codes W this written).explained = true := by
  unfold withOutput
  apply explained_deferring
  split
  · simp [Run.explained]
  · simp [Run.explained, fmtPrintln, Event.isUngated, Site.gate]
  · simp [Run.explained, fmtPrintln, Event.isUngated, Site.gate]
  · apply explained_deferring
    split
    · simp [Run.explained, fmtPrintln, Event.isUngated, Site.gate]
    · exact explained_deferring _ _ (explained_after _ _ (encode_explained _ _ _ _ _ _ _ _ _))

theorem call_explained {σ : Type} (codes : ExitCodes) (W : World σ) (this : BlockCompressor) :
    (call codes W this).explained = true := by
  unfold call
  split
  · split_ifs
    · simp [Run.explained, fmtPrintln, Event.isUngated, Site.gate]
    · exact explained_after _ _ (withOutput_explained _ _ _ _)
  · split
    · simp [Run.explained, fmtPrintln, Event.isUngated, Site.gate]
    · exact explained_after _ _ (withOutput_explained _ _ _ _)

theorem stdout_append (a b : List Event) : stdout (a ++ b) = stdout a ++ stdout b := by
  induction a with
  | nil => rfl
  | cons e es ih =>
    cases e with
    | out s t shown => cases shown <;> simp [stdout, ih]
    | _ => simp [stdout, ih]

theorem encode_dropZeroReadErrors {σ : Type} (codes : ExitCodes) (W : World σ)
    (this : BlockCompressor) (written : Nat) :
    ∀ (reads : List ReadResult) (cos : σ) (read delta : Int) (k : Nat),
    (encode codes W this written (dropZeroReadErrors reads) cos read delta k).outcome =
        (encode codes W this written reads cos read delta k).outcome ∧
      (encode codes W this written (dropZeroReadErrors reads) cos read delta k).stream =
        (encode codes W this written reads cos read delta k).stream ∧
      stdout (encode codes W this written (dropZeroReadErrors reads) cos read delta k).trace =
        stdout (encode codes W this written reads cos read delta k).trace ∧
      writes (encode codes W this written (dropZeroReadErrors reads) cos read delta k).trace =
        writes (encode codes W this written reads cos read delta k).trace := by
  intro reads
  induction reads with
  | nil => intro cos read delta k; exact ⟨rfl, rfl, rfl, rfl⟩
  | cons r rs ih =>
    intro cos read delta k
    by_cases hl : r.data.length > 0
    · simp only [dropZeroReadErrors, hl, if_true]
      rw [encode, encode]
      simp only [hl, if_true]
      split_ifs
      · exact ⟨rfl, rfl, rfl, rfl⟩
      · split
        · exact ⟨rfl, rfl, rfl, rfl⟩
        · exact ⟨rfl, rfl, rfl, rfl⟩
        · exact ⟨rfl, rfl, rfl, rfl⟩
        · obtain ⟨h1, h2, h3, h4⟩ := ih _ (wrapInt64 (read + r.data.length))
            (wrapInt64 (delta + W.elapsed k)) (k + 1)
          refine ⟨by simpa using h1, by simpa using h2, ?_, ?_⟩
          · simp only [Run.after_trace, stdout_append, h3]
          · simp only [Run.after_trace, writes_append, h4]
    · simp only [dropZeroReadErrors, hl, if_false]
      rw [encode, encode]
      simp only [hl, if_false]
      exact ⟨rfl, rfl, by simp [stdout_append, stdout], by simp [writes_append, writes]⟩

theorem encode_withoutZeroReadErrors {σ : Type} (codes : ExitCodes) (W : World σ)
    (this : BlockCompressor) (written : Nat) :
    ∀ (reads : List ReadResult) (cos : σ) (read delta : Int) (k : Nat),
    encode codes W.withoutZeroReadErrors this written reads cos read delta k =
      encode codes W this written reads cos read delta k := by
  intro reads
  induction reads with
  | nil => intro cos read delta k; rfl
  | cons r rs ih =>
    intro cos read delta k
    rw [encode, encode]
    simp only [ih]
    rfl

theorem withOutput_withoutZeroReadErrors {σ : Type} (codes : ExitCodes) (W : World σ)
    (this : BlockCompressor) (written : Nat) :
    (withOutput codes W.withoutZeroReadErrors this written).outcome =
        (withOutput codes W this written).outcome ∧
      (withOutput codes W.withoutZeroReadErrors this written).stream =
        (withOutput codes W this written).stream ∧
      stdout (withOutput codes W.withoutZeroReadErrors this written).trace =
        stdout (withOutput codes W this written).trace ∧
      writes (withOutput codes W.withoutZeroReadErrors this written).trace =
        writes (withOutput codes W this written).trace := by
  have hn : W.withoutZeroReadErrors.newStream = W.newStream := rfl
  have hi : W.withoutZeroReadErrors.openInput = W.openInput := rfl
  have hg : W.withoutZeroReadErrors.getWritten = W.getWritten := rfl
  have hr : W.withoutZeroReadErrors.reads = dropZeroReadErrors W.reads := rfl
  unfold withOutput
  simp only [hn, hi, hg, hr, encode_withoutZeroReadErrors]
  cases h1 : W.newStream this.entropyCodec this.blockSize this.debug with
  | error e =>
    cases e with
    | other text => exact ⟨rfl, rfl, rfl, rfl⟩
    | ioError ptr => cases ptr <;> exact ⟨rfl, rfl, rfl, rfl⟩
  | ok cos =>
    cases h2 : W.openInput this.inputName with
    | some e => exact ⟨rfl, rfl, rfl, rfl⟩
    | none =>
      obtain ⟨e1, e2, e3, e4⟩ := encode_dropZeroReadErrors codes W this (W.getWritten cos)
        W.reads cos 0 0 0
      refine ⟨by simpa using e1, by simpa using e2, ?_, ?_⟩
      · simp only [Run.deferring_trace, Run.after_trace, stdout_append, e3]
      · simp only [Run.deferring_trace, Run.after_trace, writes_append, e4]

theorem call_withoutZeroReadErrors {σ : Type} (codes : ExitCodes) (W : World σ)
    (this : BlockCompressor) :
    (call codes W.withoutZeroReadErrors this).outcome = (call codes W this).outcome ∧
      (call codes W.withoutZeroReadErrors this).stream = (call codes W this).stream ∧
      stdout (call codes W.withoutZeroReadErrors this).trace =
        stdout (call codes W this).trace ∧
      writes (call codes W.withoutZeroReadErrors this).trace =
        writes (call codes W this).trace := by
  have ho : W.withoutZeroReadErrors.openFile = W.openFile := rfl
  have hc : W.withoutZeroReadErrors.create = W.create := rfl
  obtain ⟨e1, e2, e3, e4⟩ := withOutput_withoutZeroReadErrors codes W this 0
  unfold call
  rw [ho, hc]
  cases h1 : W.openFile this.outputName with
  | none =>
    cases h2 : this.overwrite with
    | false => exact ⟨rfl, rfl, rfl, rfl⟩
    | true =>
      have hb : (true == false) = false := rfl
      refine ⟨by simpa using e1, by simpa using e2, ?_, ?_⟩
      · simp only [hb, Bool.false_eq_true, if_false, Run.after_trace, stdout_append, e3]
      · simp only [hb, Bool.false_eq_true, if_false, Run.after_trace, writes_append, e4]
  | some e =>
    cases h2 : W.create this.outputName with
    | some e => exact ⟨rfl, rfl, rfl, rfl⟩
    | none =>
      refine ⟨by simpa using e1, by simpa using e2, ?_, ?_⟩
      · simp only [Run.after_trace, stdout_append, e3]
      · simp only [Run.after_trace, writes_append, e4]

theorem read_not_mem_chunkEvents (cs : List (List UInt8)) (data : List UInt8) (err : String) :
    Event.read data (some err) ∉ chunkEvents cs := by
  induction cs with
  | nil => simp [chunkEvents]
  | cons c cs ih => simp [chunkEvents, ih]

theorem read_not_mem_prepareEvents {σ : Type} (W : World σ) (this : BlockCompressor)
    (data : List UInt8) (err : Option String) : Event.read data err ∉ prepareEvents W this := by
  unfold prepareEvents
  cases W.openFile this.outputName <;> simp

theorem read_not_mem_report {σ : Type} (W : World σ) (this : BlockCompressor) (written : Nat)
    (cos : σ) (read delta : Int) (data : List UInt8) (err : Option String) :
    Event.read data err ∉ (report W this written cos read delta).trace := by
  unfold report
  by_cases h : read = 0
  · simp [h, fmtPrintln]
  · by_cases hm : 0 < Int.tdiv delta 1000000
    · simp [h, hm, printOut]
    · simp [h, hm, printOut]

theorem nextRead_of_endsInput (tl : List ReadResult) (h : endsInput tl = true)
    (data : List UInt8) (err : Option String) (he : Event.read data err = nextRead tl) :
    data = [] := by
  cases tl with
  | nil =>
    simp only [nextRead] at he
    injection he with h1 _
  | cons r rs =>
    have hr : r.data = [] := by simpa [endsInput] using h
    simp only [nextRead] at he
    injection he with h1 _
    rw [h1, hr]

theorem goodChunks_pos (reads : List ReadResult) : ∀ c ∈ goodChunks reads, 1 ≤ c.length := by
  induction reads with
  | nil => simp [goodChunks]
  | cons r rs ih =>
    by_cases hg : (decide (0 < r.data.length) && r.err.isNone) = true
    · have hg2 : 0 < r.data.length ∧ r.err.isNone = true := by
        simpa only [Bool.and_eq_true, decide_eq_true_eq] using hg
      intro c hc
      simp only [goodChunks, hg, if_true, List.mem_cons] at hc
      rcases hc with h | h
      · rw [h]; exact hg2.1
      · exact ih c h
    · simp [goodChunks, hg]

theorem flatten_pos (cs : List (List UInt8)) (hne : cs ≠ []) (hpos : ∀ c ∈ cs, 1 ≤ c.length) :
    0 < cs.flatten.length := by
  cases cs with
  | nil => exact absurd rfl hne
  | cons c cs =>
    have := hpos c (List.mem_cons_self _ _)
    simp only [List.flatten_cons, List.length_append]
    omega

/-! ## The claims -/

/-- C1: when the output file is prepared, the stream is constructed, the input
opens, the reads deliver the chunks `chunks` (each of 1 to 32768 bytes) without
error and then a zero-length read, every write succeeds and the input has `S`
bytes with `0 < S < 2^63` (the sizes an `int64` counter holds), `call` passes
exactly `chunks` to `cos.Write`, in order, so their concatenation is the input;
the only "Input size" line it formats carries `S`, whatever the chunk
boundaries, and is printed unless `silent`; and it returns exit code 0 with
the written-byte count of the closed stream. -/
theorem call_success_accounting {σ : Type} (codes : ExitCodes) (W : World σ)
    (this : BlockCompressor) (cos0 : σ) (chunks : List (List UInt8)) (tl : List ReadResult)
    (hout : outputPrepared W this = true)
    (hnew : W.newStream this.entropyCodec this.blockSize this.debug = Except.ok cos0)
    (hin : W.openInput this.inputName = none)
    (hreads : W.reads = chunks.map ReadResult.ok ++ tl)
    (hchunk : ∀ c ∈ chunks, 1 ≤ c.length ∧ c.length ≤ DEFAULT_BUFFER_SIZE)
    (hend : endsInput tl = true)
    (hwr : writesSucceed W cos0 chunks = true)
    (hne : 0 < chunks.flatten.length)
    (hsize : chunks.flatten.length < 2 ^ 63) :
    writes (call codes W this).trace = chunks ∧
      (writes (call codes W this).trace).flatten = chunks.flatten ∧
      Event.out .statInput ("Input size:       " ++ toString chunks.flatten.length)
        (!this.silent) ∈ (call codes W this).trace ∧
      (∀ text shown, Event.out .statInput text shown ∈ (call codes W this).trace →
        text = "Input size:       " ++ toString chunks.flatten.length) ∧
      (this.silent = false →
        "Input size:       " ++ toString chunks.flatten.length ∈
          stdout (call codes W this).trace) ∧
      (call codes W this).outcome =
        Outcome.returned 0 (W.getWritten (W.close (feed W cos0 chunks))) ∧
      (call codes W this).stream = some (W.close (feed W cos0 chunks)) := by
  obtain ⟨ho, hs, ht⟩ := call_clean_reads codes W this cos0 chunks tl hout hnew hin hreads
    (fun c hc => (hchunk c hc).1) hend hwr
  have hread : countRead 0 chunks = (chunks.flatten.length : Int) := by
    rw [countRead_eq chunks 0 (le_refl _) (by rw [zero_add]; exact_mod_cast hsize), zero_add]
  have hnz : countRead 0 chunks ≠ 0 := by
    rw [hread]
    exact_mod_cast (Nat.pos_iff_ne_zero.mp hne)
  obtain ⟨ro, rs, rt⟩ := report_success W this (W.getWritten cos0) (feed W cos0 chunks)
    (countRead 0 chunks) (countDelta W 0 0 chunks.length) hnz
  have htext : toString (chunks.flatten.length : Int) = toString chunks.flatten.length := rfl
  have hw : writes (call codes W this).trace = chunks := by
    rw [ht]
    simp only [writes_append, writes_banner, writes_prepareEvents, writes_startEvents,
      writes_chunkEvents, writes_nextRead, writes_report]
    simp [writes]
  have hmem : Event.out .statInput ("Input size:       " ++ toString chunks.flatten.length)
      (!this.silent) ∈ (call codes W this).trace := by
    rw [ht, rt, hread, htext]
    simp
  refine ⟨hw, by rw [hw], hmem, ?_, ?_, by rw [ho, ro], by rw [hs, rs]⟩
  · intro text shown hm
    rw [ht, rt, hread, htext] at hm
    have h1 := out_not_mem_chunkEvents chunks .statInput text shown
    have h2 := out_not_mem_prepareEvents W this .statInput text shown
    have h3 := out_ne_nextRead tl .statInput text shown
    simp only [List.mem_append, List.mem_cons, List.mem_singleton, h1, h2, h3, false_or,
      or_false] at hm
    simp [banner, startEvents, printOut] at hm
    rw [hm.1, List.length_flatten]
  · intro hsil
    rw [mem_stdout]
    refine ⟨.statInput, ?_⟩
    rw [hsil] at hmem
    exact hmem

/-- Witness of C1 on the sample world: five bytes read as 3 + 2. -/
theorem call_success_accounting_witness :
    writes (call sampleCodes (sampleWorld sampleReads) sampleConfig).trace = sampleChunks ∧
      (call sampleCodes (sampleWorld sampleReads) sampleConfig).outcome =
        Outcome.returned 0 9 := by
  have h := call_success_accounting sampleCodes (sampleWorld sampleReads) sampleConfig 4
    sampleChunks [] rfl rfl rfl rfl (by decide) rfl rfl (by decide) (by decide)
  exact ⟨h.1, h.2.2.2.2.2.1⟩

theorem throughput_value (S : Nat) (ms : Int) (hms : 0 < ms) (hS : S * 1000 < 2 ^ 63) :
    Int.tdiv (wrapInt64 ((S : Int) * 1000) / 1024) ms =
      ((S * 1000 / 1024 / ms.toNat : Nat) : Int) := by
  have hw : wrapInt64 ((S : Int) * 1000) = ((S * 1000 : Nat) : Int) := by
    rw [wrapInt64_of_range]
    · push_cast; ring
    · have : (0 : Int) ≤ (S : Int) := Int.ofNat_nonneg _
      norm_num
      omega
    · have h : ((S * 1000 : Nat) : Int) < ((2 ^ 63 : Nat) : Int) := Int.ofNat_lt.mpr hS
      push_cast at h
      exact h
  have h1024 : (1024 : Int) = ((1024 : Nat) : Int) := rfl
  have hmsn : ms = ((ms.toNat : Nat) : Int) := (Int.toNat_of_nonneg (le_of_lt hms)).symm
  rw [hw, h1024, ← Int.natCast_div]
  rw [Int.tdiv_eq_ediv (Int.ofNat_nonneg _) (le_of_lt hms)]
  conv_lhs => rw [hmsn]
  rw [← Int.natCast_div]

/-- C9: on a successful run (hypotheses of C1) of `S` input bytes, with `ns`
the accumulated encode time `delta` and `ms = ns / 1000000` in Go's integer
division, a "Throughput (KB/s)" line is formatted exactly when `ms > 0` (so
its divisor is never zero), it is then the only one and carries
`((S * 1000) >> 10) / ms` in 64-bit signed arithmetic, which for
`S * 1000 < 2^63` is `floor(floor(S * 1000 / 1024) / ms)`; the lines
"Encoding:", "Input size:", "Output size:" and "Ratio:" are formatted in both
cases; all of them are printed unless `silent`. -/
theorem call_throughput {σ : Type} (codes : ExitCodes) (W : World σ)
    (this : BlockCompressor) (cos0 : σ) (chunks : List (List UInt8)) (tl : List ReadResult)
    (hout : outputPrepared W this = true)
    (hnew : W.newStream this.entropyCodec this.blockSize this.debug = Except.ok cos0)
    (hin : W.openInput this.inputName = none)
    (hreads : W.reads = chunks.map ReadResult.ok ++ tl)
    (hchunk : ∀ c ∈ chunks, 1 ≤ c.length ∧ c.length ≤ DEFAULT_BUFFER_SIZE)
    (hend : endsInput tl = true)
    (hwr : writesSucceed W cos0 chunks = true)
    (hne : 0 < chunks.flatten.length)
    (hsize : chunks.flatten.length < 2 ^ 63) :
    ((∃ text shown, Event.out .statThroughput text shown ∈ (call codes W this).trace) ↔
        0 < Int.tdiv (countDelta W 0 0 chunks.length) 1000000) ∧
      (∀ text shown, Event.out .statThroughput text shown ∈ (call codes W this).trace →
        shown = (!this.silent) ∧
        text = "Throughput (KB/s) " ++
          toString (Int.tdiv (wrapInt64 ((chunks.flatten.length : Int) * 1000) / 1024)
            (Int.tdiv (countDelta W 0 0 chunks.length) 1000000))) ∧
      (0 < Int.tdiv (countDelta W 0 0 chunks.length) 1000000 →
        chunks.flatten.length * 1000 < 2 ^ 63 →
        Event.out .statThroughput
          ("Throughput (KB/s) " ++
            toString (chunks.flatten.length * 1000 / 1024 /
              (Int.tdiv (countDelta W 0 0 chunks.length) 1000000).toNat))
          (!this.silent) ∈ (call codes W this).trace) ∧
      (∃ text, Event.out .statEncoding text (!this.silent) ∈ (call codes W this).trace) ∧
      (∃ text, Event.out .statInput text (!this.silent) ∈ (call codes W this).trace) ∧
      (∃ text, Event.out .statOutput text (!this.silent) ∈ (call codes W this).trace) ∧
      (∃ text, Event.out .statRatio text (!this.silent) ∈ (call codes W this).trace) := by
  obtain ⟨_, _, ht⟩ := call_clean_reads codes W this cos0 chunks tl hout hnew hin hreads
    (fun c hc => (hchunk c hc).1) hend hwr
  have hread : countRead 0 chunks = (chunks.flatten.length : Int) := by
    rw [countRead_eq chunks 0 (le_refl _) (by rw [zero_add]; exact_mod_cast hsize), zero_add]
  have hnz : countRead 0 chunks ≠ 0 := by
    rw [hread]
    exact_mod_cast (Nat.pos_iff_ne_zero.mp hne)
  obtain ⟨_, _, rt⟩ := report_success W this (W.getWritten cos0) (feed W cos0 chunks)
    (countRead 0 chunks) (countDelta W 0 0 chunks.length) hnz
  rw [hread] at rt ht
  generalize countDelta W 0 0 chunks.length = ns at rt ht ⊢
  generalize chunks.flatten.length = S at rt ht ⊢
  have hmem : ∀ text shown, Event.out .statThroughput text shown ∈ (call codes W this).trace ↔
      (0 < Int.tdiv ns 1000000 ∧ shown = (!this.silent) ∧
        text = "Throughput (KB/s) " ++
          toString (Int.tdiv (wrapInt64 ((S : Int) * 1000) / 1024) (Int.tdiv ns 1000000))) := by
    intro text shown
    rw [ht, rt]
    have h1 := out_not_mem_chunkEvents chunks .statThroughput text shown
    have h2 := out_not_mem_prepareEvents W this .statThroughput text shown
    have h3 := out_ne_nextRead tl .statThroughput text shown
    simp only [List.mem_append, List.mem_cons, List.mem_singleton, h1, h2, h3, false_or,
      or_false]
    by_cases hm : 0 < Int.tdiv ns 1000000
    · simp [banner, startEvents, printOut, hm]
      tauto
    · simp [banner, startEvents, printOut, hm]
  have hsub : ∀ e, e ∈ (report W this (W.getWritten cos0) (feed W cos0 chunks) (S : Int)
      ns).trace → e ∈ (call codes W this).trace := by
    intro e h
    rw [ht]
    simp [h]
  refine ⟨?_, ?_, ?_, ?_, ?_, ?_, ?_⟩
  · constructor
    · rintro ⟨text, shown, h⟩
      exact ((hmem text shown).mp h).1
    · intro hm
      exact ⟨_, _, (hmem _ _).mpr ⟨hm, rfl, rfl⟩⟩
  · intro text shown h
    exact ((hmem text shown).mp h).2
  · intro hm hS
    rw [hmem]
    refine ⟨hm, rfl, ?_⟩
    rw [throughput_value S _ hm hS]
    rfl
  · exact ⟨"Encoding:         " ++ toString (Int.tdiv ns 1000000) ++ " ms",
      hsub _ (by rw [rt]; simp)⟩
  · exact ⟨"Input size:       " ++ toString (S : Int), hsub _ (by rw [rt]; simp)⟩
  · exact ⟨"Output size:      " ++ toString (W.getWritten (W.close (feed W cos0 chunks))),
      hsub _ (by rw [rt]; simp)⟩
  · exact ⟨"Ratio:            " ++ W.fmtRatio (W.getWritten (W.close (feed W cos0 chunks))) S,
      hsub _ (by rw [rt]; simp)⟩

/-- Witness of C9 on the sample world: two writes of 2 ms each, 5 bytes. -/
theorem call_throughput_witness :
    Event.out .statThroughput
        ("Throughput (KB/s) " ++ toString (sampleChunks.flatten.length * 1000 / 1024 /
          (Int.tdiv (countDelta (sampleWorld sampleReads) 0 0 sampleChunks.length)
            1000000).toNat))
        (!sampleConfig.silent) ∈
      (call sampleCodes (sampleWorld sampleReads) sampleConfig).trace :=
  (call_throughput sampleCodes (sampleWorld sampleReads) sampleConfig 4
    sampleChunks [] rfl rfl rfl rfl (by decide) rfl rfl (by decide) (by decide)).2.2.1
    (by decide) (by decide)

/-- C2: with `overwrite = false` and an output path that opens (the file
exists), `call` returns the overwrite-file code with 0 bytes written; after
the banner it makes exactly three calls: the read/write open, the message, and
the close of the handle; so it constructs no stream, opens no input, creates
or truncates nothing and writes nothing. -/
theorem call_overwrite_protection {σ : Type} (codes : ExitCodes) (W : World σ)
    (this : BlockCompressor) (hov : this.overwrite = false)
    (hex : W.openFile this.outputName = none) :
    (call codes W this).outcome = Outcome.returned codes.ERR_OVERWRITE_FILE 0 ∧
      (call codes W this).stream = none ∧
      (call codes W this).trace =
        banner this ++
          [Event.openFile this.outputName true,
            Event.out .errOverwrite
              "The output file exists and the 'overwrite' command line option has not been provided"
              true,
            Event.closeOutput] ∧
      Event.closeOutput ∈ (call codes W this).trace ∧
      (∀ codec size sink ok, Event.newStream codec size sink ok ∉ (call codes W this).trace) ∧
      (∀ name ok, Event.openInput name ok ∉ (call codes W this).trace) ∧
      (∀ name ok, Event.create name ok ∉ (call codes W this).trace) ∧
      (∀ chunk ok, Event.write chunk ok ∉ (call codes W this).trace) ∧
      writes (call codes W this).trace = [] := by
  have hc : call codes W this =
      { outcome := Outcome.returned codes.ERR_OVERWRITE_FILE 0
        trace := banner this ++
          [Event.openFile this.outputName true,
            Event.out .errOverwrite
              "The output file exists and the 'overwrite' command line option has not been provided"
              true,
            Event.closeOutput]
        stream := none } := by
    unfold call
    simp [hex, hov, fmtPrintln]
  rw [hc]
  refine ⟨rfl, rfl, rfl, by simp, ?_, ?_, ?_, ?_, ?_⟩
  · intro codec size sink ok
    simp [banner, printOut]
  · intro name ok
    simp [banner, printOut]
  · intro name ok
    simp [banner, printOut]
  · intro chunk ok
    simp [banner, printOut]
  · simp [writes_append, writes_banner, writes]

/-- Witness of C2 on the sample world with the output file already there. -/
theorem call_overwrite_protection_witness :
    (call sampleCodes (existingOutputWorld sampleReads) sampleConfig).outcome =
      Outcome.returned sampleCodes.ERR_OVERWRITE_FILE 0 :=
  (call_overwrite_protection sampleCodes (existingOutputWorld sampleReads) sampleConfig
    rfl rfl).1

/-- C3: when the output file is prepared, the stream is constructed, the input
opens and the first read returns zero bytes, `call` passes nothing to
`cos.Write`, prints "Empty input file ... nothing to do" whatever `silent` is,
formats no statistics line, and returns `WARN_EMPTY_INPUT` = -128 with the
count `cos.GetWritten()` gave right after construction. -/
theorem call_empty_input {σ : Type} (codes : ExitCodes) (W : World σ)
    (this : BlockCompressor) (cos0 : σ)
    (hout : outputPrepared W this = true)
    (hnew : W.newStream this.entropyCodec this.blockSize this.debug = Except.ok cos0)
    (hin : W.openInput this.inputName = none)
    (hfirst : endsInput W.reads = true) :
    writes (call codes W this).trace = [] ∧
      (∀ chunk ok, Event.write chunk ok ∉ (call codes W this).trace) ∧
      Event.out .emptyInput "Empty input file ... nothing to do" true ∈
        (call codes W this).trace ∧
      "Empty input file ... nothing to do" ∈ stdout (call codes W this).trace ∧
      (∀ site text shown, Event.out site text shown ∈ (call codes W this).trace →
        site.isStatistic = false) ∧
      (call codes W this).outcome = Outcome.returned WARN_EMPTY_INPUT (W.getWritten cos0) ∧
      WARN_EMPTY_INPUT = -128 := by
  obtain ⟨ho, _, ht⟩ := call_clean_reads codes W this cos0 [] W.reads hout hnew hin
    (by simp) (by simp) hfirst rfl
  have hr : countRead 0 ([] : List (List UInt8)) = 0 := rfl
  rw [hr, report_empty] at ho ht
  have hmem : Event.out .emptyInput "Empty input file ... nothing to do" true ∈
      (call codes W this).trace := by
    rw [ht]
    simp
  have hnr : ∀ chunk ok, Event.write chunk ok ≠ nextRead W.reads := by
    intro chunk ok
    cases W.reads <;> simp [nextRead]
  have hnp : ∀ chunk ok, Event.write chunk ok ∉ prepareEvents W this := by
    intro chunk ok
    unfold prepareEvents
    cases W.openFile this.outputName <;> simp
  refine ⟨?_, ?_, hmem, (mem_stdout _ _).mpr ⟨_, hmem⟩, ?_, ho, rfl⟩
  · rw [ht]
    simp only [writes_append, writes_banner, writes_prepareEvents, writes_startEvents,
      writes_chunkEvents, writes_nextRead]
    simp [writes]
  · intro chunk ok
    rw [ht]
    simp [banner, startEvents, printOut, chunkEvents, hnr, hnp]
  · intro site text shown hm
    rw [ht] at hm
    have h2 := out_not_mem_prepareEvents W this site text shown
    have h3 := out_ne_nextRead W.reads site text shown
    simp only [List.mem_append, List.mem_cons, List.mem_singleton, h2, h3, false_or,
      or_false, chunkEvents, List.not_mem_nil] at hm
    cases site <;> first | rfl | simp [banner, startEvents, printOut] at hm

/-- Witness of C3 on the sample world with an input that gives no byte. -/
theorem call_empty_input_witness :
    (call sampleCodes (sampleWorld []) sampleConfig).outcome = Outcome.returned (-128) 4 :=
  (call_empty_input sampleCodes (sampleWorld []) sampleConfig 4 rfl rfl rfl rfl).2.2.2.2.2.1

/-- C5: with `-help` unset, `NewBlockCompressor` ends the process with the
missing-filename code exactly when `-input` is empty; it has then printed
"Missing input file name, exiting ..." last and returns no instance.
Otherwise it returns an instance whose `inputName` is the input and whose
`outputName` is the output when that is not empty and the input followed by
".knz" when it is; both names are then non-empty. -/
theorem NewBlockCompressor_file_names (codes : ExitCodes) (f : Flags)
    (hhelp : f.help = false) :
    ((∃ out, NewBlockCompressor codes f = Built.exited codes.ERR_MISSING_FILENAME out) ↔
        f.inputName = "") ∧
      ((∃ code out, NewBlockCompressor codes f = Built.exited code out) ↔ f.inputName = "") ∧
      (f.inputName = "" →
        ∃ out, NewBlockCompressor codes f =
            Built.exited codes.ERR_MISSING_FILENAME
              (out ++ [Event.out .missingInput "Missing input file name, exiting ..." true]) ∧
          ∀ this out2, NewBlockCompressor codes f ≠ Built.ready this out2) ∧
      (f.inputName ≠ "" →
        ∃ this out, NewBlockCompressor codes f = Built.ready this out ∧
          this.inputName = f.inputName ∧
          this.outputName = (if f.outputName = "" then f.inputName ++ ".knz" else f.outputName) ∧
          this.inputName ≠ "" ∧ this.outputName ≠ "") := by
  by_cases hin : f.inputName = ""
  · have hz : f.inputName.utf8ByteSize = 0 := (utf8ByteSize_eq_zero _).mpr hin
    have hb : NewBlockCompressor codes f =
        Built.exited codes.ERR_MISSING_FILENAME
          ((if (f.silent == true && f.debug == true) = true then
              printOut .warnSilentDebug
                "Warning: both 'silent' and 'debug' options were selected, ignoring 'debug'" true
            else []) ++
            [Event.out .missingInput "Missing input file name, exiting ..." true]) := by
      unfold NewBlockCompressor
      simp [hhelp, hz, fmtPrintln]
    refine ⟨⟨fun _ => hin, fun _ => ⟨_, hb⟩⟩, ⟨fun _ => hin, fun _ => ⟨_, _, hb⟩⟩,
      fun _ => ⟨_, hb, ?_⟩, fun h => absurd hin h⟩
    intro this out2 h
    rw [hb] at h
    exact Built.noConfusion h
  · have hz : ¬ f.inputName.utf8ByteSize = 0 := fun h => hin ((utf8ByteSize_eq_zero _).mp h)
    have hb : NewBlockCompressor codes f =
        Built.ready
          { debug := if (f.silent == true && f.debug == true) = true then false else f.debug
            silent := f.silent
            overwrite := f.overwrite
            inputName := f.inputName
            outputName :=
              if f.outputName.utf8ByteSize == 0 then f.inputName ++ ".knz" else f.outputName
            entropyCodec := f.entropy.toUpper
            blockSize := toUint f.blockSize }
          (if (f.silent == true && f.debug == true) = true then
              printOut .warnSilentDebug
                "Warning: both 'silent' and 'debug' options were selected, ignoring 'debug'" true
            else []) := by
      unfold NewBlockCompressor
      simp [hhelp, hz]
    refine ⟨⟨?_, fun h => absurd h hin⟩, ⟨?_, fun h => absurd h hin⟩, fun h => absurd h hin,
      fun _ => ⟨_, _, hb, rfl, ?_, hin, ?_⟩⟩
    · rintro ⟨out, h⟩
      rw [hb] at h
      exact Built.noConfusion h
    · rintro ⟨code, out, h⟩
      rw [hb] at h
      exact Built.noConfusion h
    · by_cases ho : f.outputName = ""
      · rw [if_pos ho]
        simp only [(utf8ByteSize_eq_zero _).mpr ho, beq_self_eq_true, if_true]
      · have : ¬ f.outputName.utf8ByteSize = 0 := fun h => ho ((utf8ByteSize_eq_zero _).mp h)
        simp [ho, this]
    · by_cases ho : f.outputName = ""
      · simp only [ho, (utf8ByteSize_eq_zero _).mpr ho, beq_self_eq_true, if_true]
        exact append_knz_ne _
      · have : ¬ f.outputName.utf8ByteSize = 0 := fun h => ho ((utf8ByteSize_eq_zero _).mp h)
        simp [ho, this]

/-- Witness of C5: `-input=a.txt` alone gives the output name `a.txt.knz`. -/
theorem NewBlockCompressor_file_names_witness :
    ∃ this out, NewBlockCompressor sampleCodes sampleFlags = Built.ready this out ∧
      this.inputName = "a.txt" ∧
      this.outputName = (if sampleFlags.outputName = "" then "a.txt" ++ ".knz" else "") ∧
      this.inputName ≠ "" ∧ this.outputName ≠ "" :=
  (NewBlockCompressor_file_names sampleCodes sampleFlags rfl).2.2.2 (by decide)

/-- C7, at an error that is not a `*io.IOError`: the type assertion
`err.(*io.IOError)` of line 157 panics, so `call` does not return the
create-compressor code (after the deferred close of the output file); a
structured error does return its own code with 0 bytes written. -/
theorem call_stream_error_panics :
    (call sampleCodes (failingStreamWorld (GoError.other "invalid block size"))
        sampleConfig).outcome = Outcome.panicked ∧
      (call sampleCodes (failingStreamWorld (GoError.other "invalid block size"))
        sampleConfig).outcome ≠ Outcome.returned sampleCodes.ERR_CREATE_COMPRESSOR 0 ∧
      (call sampleCodes
        (failingStreamWorld (GoError.ioError (some { message := "bad codec", errorCode := -3 })))
        sampleConfig).outcome = Outcome.returned (-3) 0 := by
  refine ⟨rfl, ?_, rfl⟩
  intro h
  exact Outcome.noConfusion h

/-- C8, at a write that fails after an earlier write went through, and at a
read that fails after an earlier chunk was written: `call` returns the count
4 taken right after construction, while the stream has written 7 bytes at the
return statement. -/
theorem call_streaming_error_count :
    (call sampleCodes
        (fullDiskWorld 7 (GoError.ioError (some { message := "disk full", errorCode := -12 }))
          sampleReads) sampleConfig).outcome = Outcome.returned (-12) 4 ∧
      (call sampleCodes
        (fullDiskWorld 7 (GoError.ioError (some { message := "disk full", errorCode := -12 }))
          sampleReads) sampleConfig).stream = some 7 ∧
      (call sampleCodes
        (sampleWorld [ReadResult.ok [1, 2, 3], { data := [4, 5], err := some "input/output error" }])
        sampleConfig).outcome = Outcome.returned sampleCodes.ERR_READ_FILE 4 ∧
      (call sampleCodes
        (sampleWorld [ReadResult.ok [1, 2, 3], { data := [4, 5], err := some "input/output error" }])
        sampleConfig).stream = some 7 := by
  refine ⟨rfl, rfl, rfl, rfl⟩

/-- C6: for every configuration and every behaviour of the file system and
the engine, if `call` returns an exit code other than 0, then its trace holds
a line of a print statement that neither `silent` nor `debug` gates, and that
line is on standard output. -/
theorem call_no_silent_failure {σ : Type} (codes : ExitCodes) (W : World σ)
    (this : BlockCompressor) (code : Int) (written : Nat)
    (hret : (call codes W this).outcome = Outcome.returned code written)
    (hcode : code ≠ 0) :
    ∃ site text, site.gate = Gate.always ∧
      Event.out site text true ∈ (call codes W this).trace ∧
      text ∈ stdout (call codes W this).trace := by
  have h := call_explained codes W this
  simp only [Run.explained, hret, Bool.or_eq_true, beq_iff_eq] at h
  rcases h with h | h
  · obtain ⟨e, he, hu⟩ := List.any_eq_true.mp h
    cases e with
    | out site text shown =>
      cases shown with
      | true =>
        refine ⟨site, text, ?_, he, (mem_stdout _ _).mpr ⟨site, he⟩⟩
        simpa [Event.isUngated] using hu
      | false => simp [Event.isUngated] at hu
    | _ => simp [Event.isUngated] at hu
  · exact absurd h hcode

/-- Witness of C6: the run on an empty input returns -128 and has printed. -/
theorem call_no_silent_failure_witness :
    ∃ site text, site.gate = Gate.always ∧
      Event.out site text true ∈ (call sampleCodes (sampleWorld []) sampleConfig).trace ∧
      text ∈ stdout (call sampleCodes (sampleWorld []) sampleConfig).trace :=
  call_no_silent_failure sampleCodes (sampleWorld []) sampleConfig (-128) 4 rfl (by decide)

/-- C4, as stated, fails when `-help` is set too: with `-silent` and a
non-empty `-input`, `NewBlockCompressor` prints the eight usage lines, which
are neither warnings nor error messages, ends the process with code 0 and
builds no configuration. -/
theorem silent_help_prints_usage :
    silentHelpFlags.silent = true ∧ silentHelpFlags.inputName ≠ "" ∧
      NewBlockCompressor sampleCodes silentHelpFlags = Built.exited 0 usage ∧
      (∀ this out, NewBlockCompressor sampleCodes silentHelpFlags ≠ Built.ready this out) ∧
      usage.length = 8 ∧
      (∀ e ∈ usage, ∃ text, e = Event.out .usage text true) ∧
      Site.isDiagnostic .usage = false := by
  refine ⟨rfl, by decide, rfl, ?_, rfl, ?_, rfl⟩
  · intro this out h
    have h2 : NewBlockCompressor sampleCodes silentHelpFlags = Built.exited 0 usage := rfl
    rw [h2] at h
    exact Built.noConfusion h
  · intro e he
    simp [usage, printOut] at he
    rcases he with h | h | h | h | h | h | h | h <;> exact ⟨_, h⟩

/-- C4, amended with `-help` unset: for flags with `-silent` set (whatever
`-debug` is) and a non-empty `-input`, `NewBlockCompressor` builds a
configuration with `debug = false` and `silent = true`, printing only the
silent/debug warning (and that exactly when `-debug` was set); and in every
run of `call` on that configuration, for every file system and engine, each
line written to standard output is a warning or error message of `call`, not
gated by any flag: no configuration echo, no "Using ... entropy codec", no
"Encoding ..." and no statistics line. -/
theorem silent_mode (codes : ExitCodes) (f : Flags) (hhelp : f.help = false)
    (hsilent : f.silent = true) (hinput : f.inputName ≠ "") :
    ∃ this out, NewBlockCompressor codes f = Built.ready this out ∧
      this.debug = false ∧ this.silent = true ∧
      (∀ e ∈ out, e = Event.out .warnSilentDebug
        "Warning: both 'silent' and 'debug' options were selected, ignoring 'debug'" true) ∧
      (out ≠ [] ↔ f.debug = true) ∧
      ∀ (σ : Type) (W : World σ) (site : Site) (text : String),
        Event.out site text true ∈ (call codes W this).trace →
          site.isDiagnostic = true ∧ site.gate = Gate.always ∧ site.isEcho = false ∧
            site ≠ Site.usingCodec ∧ site ≠ Site.encodingStart ∧ site.isStatistic = false := by
  have hz : ¬ f.inputName.utf8ByteSize = 0 := fun h => hinput ((utf8ByteSize_eq_zero _).mp h)
  refine ⟨{ debug := false
            silent := true
            overwrite := f.overwrite
            inputName := f.inputName
            outputName :=
              if f.outputName.utf8ByteSize == 0 then f.inputName ++ ".knz" else f.outputName
            entropyCodec := f.entropy.toUpper
            blockSize := toUint f.blockSize },
    if f.debug = true then
      [Event.out .warnSilentDebug
        "Warning: both 'silent' and 'debug' options were selected, ignoring 'debug'" true]
    else [], ?_, rfl, rfl, ?_, ?_, ?_⟩
  · unfold NewBlockCompressor
    cases hd : f.debug <;> simp [hhelp, hsilent, hz, hd, printOut]
  · intro e he
    split_ifs at he
    · simpa using he
    · simp at he
  · cases hd : f.debug <;> simp
  · intro σ W site text hm
    have hl := List.all_eq_true.mp (call_lawful codes W _) _ hm
    simp only [Event.lawful, Bool.and_eq_true, beq_iff_eq] at hl
    obtain ⟨hg, hc⟩ := hl
    clear hm
    cases site <;>
      first
      | decide
      | (exact absurd hc (by decide))
      | (exact absurd hg (by simp [Site.gate, Gate.holds]))

/-- Witness of the amended C4: `-silent -debug -input=a.txt`. -/
theorem silent_mode_witness :
    ∃ this out, NewBlockCompressor sampleCodes silentDebugFlags = Built.ready this out ∧
      this.debug = false ∧ this.silent = true ∧
      (∀ e ∈ out, e = Event.out .warnSilentDebug
        "Warning: both 'silent' and 'debug' options were selected, ignoring 'debug'" true) ∧
      (out ≠ [] ↔ silentDebugFlags.debug = true) ∧
      ∀ (σ : Type) (W : World σ) (site : Site) (text : String),
        Event.out site text true ∈ (call sampleCodes W this).trace →
          site.isDiagnostic = true ∧ site.gate = Gate.always ∧ site.isEcho = false ∧
            site ≠ Site.usingCodec ∧ site ≠ Site.encodingStart ∧ site.isStatistic = false :=
  silent_mode sampleCodes silentDebugFlags rfl rfl (by decide)

/-- C10: in a run that reaches the loop and in which no write fails, with the
read-file code different from 0 and from -128: `call` returns the read-file
code exactly when some read returned at least one byte together with an
error; the chunks written are those of the reads before the first read that
is empty or fails, and after a failing read of at least one byte the run only
prints the message and closes, so its bytes are not written.  An error that
comes with a zero-length read changes neither the outcome nor standard output
(the run equals the one in the world without such errors): the loop ends, and
the run returns -128 when no chunk was read and 0 when at least one was (for
fewer than 2^63 bytes). -/
theorem call_read_error_reporting {σ : Type} (codes : ExitCodes) (W : World σ)
    (this : BlockCompressor) (cos0 : σ)
    (hout : outputPrepared W this = true)
    (hnew : W.newStream this.entropyCodec this.blockSize this.debug = Except.ok cos0)
    (hin : W.openInput this.inputName = none)
    (hwr : writesSucceed W cos0 (goodChunks W.reads) = true)
    (hcodes : codes.ERR_READ_FILE ≠ 0 ∧ codes.ERR_READ_FILE ≠ WARN_EMPTY_INPUT) :
    ((∃ w, (call codes W this).outcome = Outcome.returned codes.ERR_READ_FILE w) ↔
        ∃ data err, data ≠ [] ∧ Event.read data (some err) ∈ (call codes W this).trace) ∧
      writes (call codes W this).trace = goodChunks W.reads ∧
      (∀ data err, data ≠ [] → Event.read data (some err) ∈ (call codes W this).trace →
        ∃ pre text, writes pre = goodChunks W.reads ∧
          (call codes W this).trace =
            pre ++ [Event.read data (some err), Event.out .errRead text true,
              Event.closeInput, Event.closeStream, Event.closeOutput]) ∧
      ((call codes W.withoutZeroReadErrors this).outcome = (call codes W this).outcome ∧
        stdout (call codes W.withoutZeroReadErrors this).trace =
          stdout (call codes W this).trace) ∧
      (endsInput (afterGood W.reads) = true →
        (goodChunks W.reads = [] →
          (call codes W this).outcome =
            Outcome.returned WARN_EMPTY_INPUT (W.getWritten cos0)) ∧
        (goodChunks W.reads ≠ [] → (goodChunks W.reads).flatten.length < 2 ^ 63 →
          (call codes W this).outcome =
            Outcome.returned 0
              (W.getWritten (W.close (feed W cos0 (goodChunks W.reads)))))) := by
  obtain ⟨h1, _, h3⟩ := call_loop codes W this cos0 hout hnew hin
  have hsplit := encode_split codes W this (W.getWritten cos0) W.reads cos0 0 0 0 hwr
  obtain ⟨z1, _, z3, _⟩ := call_withoutZeroReadErrors codes W this
  have hempty : ∀ d : Int, (report W this (W.getWritten cos0) (feed W cos0 []) 0 d).outcome =
      Outcome.returned WARN_EMPTY_INPUT (W.getWritten cos0) := by
    intro d
    rw [report_empty]
  rcases afterGood_cases W.reads with hend | ⟨r, rs, htl, hlen, herr⟩
  · -- the loop ends on a zero-length read
    rw [encode_end _ _ _ _ _ _ _ _ _ hend, Run.after_after] at hsplit
    have hnone : ∀ data err, data ≠ [] →
        Event.read data (some err) ∉ (call codes W this).trace := by
      intro data err hd hm
      rw [h3, hsplit] at hm
      have a1 := read_not_mem_chunkEvents (goodChunks W.reads) data err
      have a2 := read_not_mem_prepareEvents W this data (some err)
      have a3 := read_not_mem_report W this (W.getWritten cos0)
        (feed W cos0 (goodChunks W.reads)) (countRead 0 (goodChunks W.reads))
        (countDelta W 0 0 (goodChunks W.reads).length) data (some err)
      have a4 : Event.read data (some err) ≠ nextRead (afterGood W.reads) :=
        fun h => hd (nextRead_of_endsInput _ hend _ _ h)
      simp only [Run.after_trace, List.mem_append, List.mem_cons, List.mem_singleton, a1, a2,
        a3, a4, false_or, or_false, zero_add, List.not_mem_nil] at hm
      simp [banner, startEvents, printOut] at hm
    have hout2 : (call codes W this).outcome =
        (report W this (W.getWritten cos0) (feed W cos0 (goodChunks W.reads))
          (countRead 0 (goodChunks W.reads))
          (countDelta W 0 0 (goodChunks W.reads).length)).outcome := by
      rw [h1, hsplit]
      simp
    refine ⟨⟨?_, ?_⟩, ?_, ?_, ⟨z1, z3⟩, ?_⟩
    · rintro ⟨w, hw⟩
      rw [hout2] at hw
      exfalso
      by_cases hz : countRead 0 (goodChunks W.reads) = 0
      · rw [hz, report_empty] at hw
        injection hw with hc _
        exact hcodes.2 hc.symm
      · rw [(report_success _ _ _ _ _ _ hz).1] at hw
        injection hw with hc _
        exact hcodes.1 hc.symm
    · rintro ⟨data, err, hd, hm⟩
      exact absurd hm (hnone data err hd)
    · rw [h3, hsplit]
      simp only [Run.after_trace, writes_append, writes_banner, writes_prepareEvents,
        writes_startEvents, writes_chunkEvents, writes_nextRead, writes_report]
      simp [writes]
    · intro data err hd hm
      exact absurd hm (hnone data err hd)
    · intro _
      refine ⟨?_, ?_⟩
      · intro hnil
        rw [hout2, hnil]
        exact hempty _
      · intro hne hsize
        have hpos := flatten_pos _ hne (goodChunks_pos W.reads)
        have hread : countRead 0 (goodChunks W.reads) =
            ((goodChunks W.reads).flatten.length : Int) := by
          rw [countRead_eq _ 0 (le_refl _) (by rw [zero_add]; exact_mod_cast hsize), zero_add]
        have hnz : countRead 0 (goodChunks W.reads) ≠ 0 := by
          rw [hread]
          exact_mod_cast (Nat.pos_iff_ne_zero.mp hpos)
        rw [hout2, (report_success _ _ _ _ _ _ hnz).1]
  · -- the loop ends on a read of at least one byte that failed
    rw [htl, encode_read_error _ _ _ _ _ _ _ _ _ _ hlen herr] at hsplit
    obtain ⟨e, he⟩ := Option.isSome_iff_exists.mp herr
    have hne : r.data ≠ [] := by
      intro h
      rw [h] at hlen
      exact absurd hlen (by simp)
    have htrace : (call codes W this).trace =
        (banner this ++ prepareEvents W this ++ startEvents this ++
            chunkEvents (goodChunks W.reads)) ++
          [Event.read r.data (some e),
            Event.out .errRead
              ("Failed to read the next chunk of input file '" ++ this.inputName ++ "': " ++
                r.err.getD "") true,
            Event.closeInput, Event.closeStream, Event.closeOutput] := by
      rw [h3, hsplit, he]
      simp [fmtPrintln]
    have hwpre : writes (banner this ++ prepareEvents W this ++ startEvents this ++
        chunkEvents (goodChunks W.reads)) = goodChunks W.reads := by
      simp only [writes_append, writes_banner, writes_prepareEvents, writes_startEvents,
        writes_chunkEvents]
      simp
    have hmem : Event.read r.data (some e) ∈ (call codes W this).trace := by
      rw [htrace]
      simp
    refine ⟨⟨fun _ => ⟨r.data, e, hne, hmem⟩, fun _ => ⟨W.getWritten cos0, ?_⟩⟩, ?_, ?_,
      ⟨z1, z3⟩, ?_⟩
    · rw [h1, hsplit]
      rfl
    · rw [htrace, writes_append, hwpre]
      simp [writes]
    · intro data err hd hm
      refine ⟨_, "Failed to read the next chunk of input file '" ++ this.inputName ++ "': " ++
        r.err.getD "", hwpre, ?_⟩
      rw [htrace] at hm ⊢
      have a1 := read_not_mem_chunkEvents (goodChunks W.reads) data err
      have a2 := read_not_mem_prepareEvents W this data (some err)
      simp only [List.mem_append, List.mem_cons, List.mem_singleton, a1, a2, false_or,
        or_false, List.not_mem_nil] at hm
      simp [banner, startEvents, printOut] at hm
      rw [hm.1, hm.2]
    · intro hend
      rw [htl] at hend
      have : r.data = [] := by simpa [endsInput] using hend
      exact absurd this hne

/-- Witness of C10 on the sample world: the second read returns two bytes
with an error. -/
theorem call_read_error_reporting_witness :
    ∃ w, (call sampleCodes
        (sampleWorld [ReadResult.ok [1, 2, 3], { data := [4, 5], err := some "input/output error" }])
        sampleConfig).outcome = Outcome.returned sampleCodes.ERR_READ_FILE w :=
  (call_read_error_reporting sampleCodes
    (sampleWorld [ReadResult.ok [1, 2, 3], { data := [4, 5], err := some "input/output error" }])
    sampleConfig 4 rfl rfl rfl rfl (by decide)).1.mpr
    ⟨[4, 5], "input/output error", by decide, by decide⟩

end Kanzi
